import Mathlib

/-!
Verification development for the AutoPagi repository (src/main.py, src/pagi_login.py).

The definitions below are a shallow embedding of the data-reconciliation engine
(`main`, lines 315-398 of src/main.py), the hybrid click primitive
(`click_row_by_text`, lines 79-138), the top-level error handling of `main`
(lines 400-407), and the startup configuration logging (lines 239-244).

File contents are modelled at the level of lists of string fields: a CSV row is
a `List String`, a stored file is a header plus its rows.  Python's `dict` is
modelled as an association list with Python's insertion-order semantics
(overwriting a key keeps its position, inserting a fresh key appends), and
Python's stable `sorted(..., reverse=True)` is modelled by `List.insertionSort`
with the reversed comparison, which is extensionally the same stable sort.
-/

/-- A CSV row: the ordered list of its string fields (one `td` text per field). -/
abbrev Row := List String

/-- The authorization-number column name searched for at src/main.py line 367. -/
def AUTH_COL : String := "מספר הרשאה"

/-- The institution column name appended at src/main.py line 328. -/
def INST_COL : String := "מוסד"

/-- The sentinel used when a contract number is not in the map (line 339). -/
def NOT_FOUND : String := "לא נמצא"

/-! ### Python dict with insertion-order semantics -/

/-- A Python `dict[str, list[str]]` as an ordered association list. -/
abbrev Dict := List (String × Row)

/-- The dict's key list in insertion order. -/
def keysOf (d : Dict) : List String := d.map (·.1)

/-- `d[k]` lookup: first (and, for a well-formed dict, only) binding of `k`. -/
def dictGet? (d : Dict) (k : String) : Option Row :=
  (d.find? (fun p => p.1 = k)).map (·.2)

/-- `d[k] = v` assignment with Python semantics: an existing key keeps its
position in the insertion order and only its value is replaced; a fresh key is
appended at the end. -/
def dictSet (d : Dict) (k : String) (v : Row) : Dict :=
  if d.any (fun p => p.1 = k) then
    d.map (fun p => if p.1 = k then (k, v) else p)
  else d ++ [(k, v)]

/-! ### Date parsing, modelling `datetime.strptime(x, "%d/%m/%Y")` -/

/-- Split a character list at every `'/'` — the literal separators of the
`"%d/%m/%Y"` format; `acc` holds the current segment reversed. -/
def splitSlash : List Char → List Char → List (List Char)
  | [], acc => [acc.reverse]
  | c :: cs, acc =>
    if c = '/' then acc.reverse :: splitSlash cs [] else splitSlash cs (c :: acc)

/-- Whether every character is a decimal digit (a strptime digit group). -/
def allDigits (cs : List Char) : Bool := cs.all Char.isDigit

/-- Decimal value of a digit group. -/
def digitsVal (cs : List Char) : Nat :=
  cs.foldl (fun acc c => acc * 10 + (c.toNat - 48)) 0

/-- Gregorian leap-year rule used by `datetime` for day-of-month validation. -/
def isLeapYear (y : Nat) : Bool := (y % 4 == 0 && y % 100 != 0) || (y % 400 == 0)

/-- Number of days in month `m` of year `y` (as validated by `datetime`). -/
def daysInMonth (y m : Nat) : Nat :=
  if m = 2 then (if isLeapYear y then 29 else 28)
  else if m = 4 ∨ m = 6 ∨ m = 9 ∨ m = 11 then 30
  else 31

/-- `datetime.strptime(s, "%d/%m/%Y")`, reduced to a sort key.  CPython's
strptime matches `%d` and `%m` against one or two digits, `%Y` against exactly
four digits, and the two `/` literally, then `datetime` validation requires
year at least 1, month 1-12, and a day valid for that month.  Dates compare by
(year, month, day); with month and day below 100 the encoding
`y * 10000 + m * 100 + d` is order-isomorphic to that lexicographic order.
`none` models the `ValueError` raised on any malformed or invalid date. -/
def parseDMY (s : String) : Option Nat :=
  match splitSlash s.data [] with
  | [ds, ms, ys] =>
    if allDigits ds ∧ 1 ≤ ds.length ∧ ds.length ≤ 2 ∧
        allDigits ms ∧ 1 ≤ ms.length ∧ ms.length ≤ 2 ∧
        allDigits ys ∧ ys.length = 4 then
      let d := digitsVal ds
      let m := digitsVal ms
      let y := digitsVal ys
      if 1 ≤ y ∧ 1 ≤ m ∧ m ≤ 12 ∧ 1 ≤ d ∧ d ≤ daysInMonth y m then
        some (y * 10000 + m * 100 + d)
      else none
    else none
  | _ => none

/-- The sort key of a row: `datetime.strptime(x[0], "%d/%m/%Y")` at line 388.
`none` covers both the `IndexError` on an empty row and the `ValueError` on a
malformed first field. -/
def rowDate (r : Row) : Option Nat :=
  match r with
  | [] => none
  | f :: _ => parseDMY f

/-- The parsed date of a row, defaulted; only used on rows known to parse. -/
def dateOf (r : Row) : Nat := (rowDate r).getD 0

/-! ### The merge dict (src/main.py lines 363-385) -/

/-- `row[auth_num_index]` guarded by `len(row) > auth_num_index` (lines 377,
383): the key of a row, absent when the row is too short to hold the key. -/
def rowKeyOf (authIdx : Nat) (r : Row) : Option String :=
  if h : authIdx < r.length then some (r.get ⟨authIdx, h⟩) else none

/-- One iteration of the loops at lines 376-379 and 382-385: rows too short to
contain the key column are skipped, all others are written into the dict. -/
def addRow (authIdx : Nat) (d : Dict) (r : Row) : Dict :=
  match rowKeyOf authIdx r with
  | some k => dictSet d k r
  | none => d

/-- The whole loop: fold every row into the dict in order. -/
def addRows (authIdx : Nat) (d : Dict) (rows : List Row) : Dict :=
  rows.foldl (addRow authIdx) d

/-- The last row of `rows` whose key is `k` — the value the dict holds at `k`
after `addRows` when `k` occurs at all. -/
def lastRowWithKey (authIdx : Nat) (rows : List Row) (k : String) : Option Row :=
  match rows with
  | [] => none
  | r :: rs =>
    match lastRowWithKey authIdx rs k with
    | some r' => some r'
    | none => if rowKeyOf authIdx r = some k then some r else none

/-! ### Sorting (src/main.py line 388) -/

/-- Descending comparison on (date key, row) pairs: `reverse=True` sorting of
`sorted(..., key=..., reverse=True)` is the stable sort by this relation. -/
def rowDesc (a b : Nat × Row) : Prop := b.1 ≤ a.1

instance : DecidableRel rowDesc := fun a b => inferInstanceAs (Decidable (b.1 ≤ a.1))

instance : IsTotal (Nat × Row) rowDesc :=
  ⟨fun a b => show b.1 ≤ a.1 ∨ a.1 ≤ b.1 from Nat.le_total b.1 a.1⟩

instance : IsTrans (Nat × Row) rowDesc :=
  ⟨fun _ _ _ hab hbc => Nat.le_trans hbc hab⟩

/-- Decorate each row with its parsed date, in list order; Python's
`sorted(key=...)` computes every key before comparing, raising on the first
row whose first field does not parse. -/
def keyRows : List Row → Option (List (Nat × Row))
  | [] => some []
  | r :: rs =>
    match rowDate r, keyRows rs with
    | some d, some ps => some ((d, r) :: ps)
    | _, _ => none

/-- `sorted(combined_data.values(), key=..., reverse=True)` (line 388): stable
sort by parsed date, newest first; `none` models the raised `ValueError`. -/
def sortRows (vals : List Row) : Option (List Row) :=
  match keyRows vals with
  | none => none
  | some keyed => some ((List.insertionSort rowDesc keyed).map (·.2))

/-! ### The reconciliation step (src/main.py lines 361-394) -/

/-- The two ways the reconciliation block raises (lines 369 and 388). -/
inductive RecError
  | missingReconciliationKey
  | dateParseFailure
deriving DecidableEq, Repr

/-- Equality of `Except` results is decidable componentwise. -/
instance {ε α : Type} [DecidableEq ε] [DecidableEq α] : DecidableEq (Except ε α) := by
  intro a b
  cases a <;> cases b
  case error.error e1 e2 =>
    exact if h : e1 = e2 then .isTrue (by rw [h]) else .isFalse (by simpa using h)
  case error.ok e1 a2 => exact .isFalse (by simp)
  case ok.error a1 e2 => exact .isFalse (by simp)
  case ok.ok a1 a2 =>
    exact if h : a1 = a2 then .isTrue (by rw [h]) else .isFalse (by simpa using h)

/-- Lines 363-388 of src/main.py: find the authorization-number column in the
new header (`headers.index`, raising when absent), key the existing master
rows then the newly extracted rows into one dict (later writes win), and sort
the dict's values by parsed date, descending. -/
def reconcile (headers : List String) (masterRows : List Row) (newRows : List Row) :
    Except RecError (List Row) :=
  match headers.findIdx? (· = AUTH_COL) with
  | none => .error .missingReconciliationKey
  | some authIdx =>
    let d := addRows authIdx (addRows authIdx [] masterRows) newRows
    match sortRows (d.map (·.2)) with
    | none => .error .dateParseFailure
    | some sorted => .ok sorted

/-! ### On-disk state (the output directory) -/

/-- The files the run writes: the fixed-path master file (header + rows, absent
before the first successful run) and the accumulated per-run snapshot files in
creation order. -/
structure FsState where
  master : Option (List String × List Row)
  snapshots : List (List String × List Row)
deriving DecidableEq, Repr

/-- The rows read back from the master file (lines 372-379): its header row is
skipped and discarded; an absent file contributes nothing. -/
def masterRowsOf (fs : FsState) : List Row :=
  match fs.master with
  | none => []
  | some (_, rows) => rows

/-- Lines 350-394 of src/main.py: write the per-run snapshot (header plus
exactly the newly extracted rows), then run reconciliation; only on success is
the master file rewritten with the merged, sorted dataset.  On an error the
snapshot already exists and the master file is untouched. -/
def saveStep (fs : FsState) (headers : List String) (rows : List Row) :
    FsState × Except RecError Unit :=
  let fs1 : FsState := { fs with snapshots := fs.snapshots ++ [(headers, rows)] }
  match reconcile headers (masterRowsOf fs1) rows with
  | .error e => (fs1, .error e)
  | .ok sorted => ({ fs1 with master := some (headers, sorted) }, .ok ())

/-! ### Institution-map enrichment (src/main.py lines 315-348) -/

/-- The institution map returned by the Google-Sheets collaborator: contract
number (9-character suffix) to institution name; empty on any failure. -/
abbrev InstMap := List (String × String)

/-- `institution_map.get(contract_number, default)` (line 345). -/
def instGet (m : InstMap) (k : String) (dflt : String) : String :=
  match m.find? (fun p => p.1 = k) with
  | some p => p.2
  | none => dflt

/-- `business_details[-9:]` (line 344): the last nine characters, or the whole
string when it is shorter than nine characters. -/
def last9 (s : String) : String := s.drop (s.length - 9)

/-- Lines 338-346: when the map is nonempty, append the resolved institution
name to the row — looked up by the 9-character contract suffix of field 2 when
the row has more than two fields, the "not found" sentinel otherwise. -/
def enrichRow (instMap : InstMap) (r : Row) : Row :=
  if instMap.isEmpty then r
  else
    let name :=
      match r.get? 2 with
      | some business => instGet instMap (last9 business) NOT_FOUND
      | none => NOT_FOUND
    r ++ [name]

/-- Lines 315-396 from the institution-map check onward: when the mapping is
required (`--skip-institution-mapping` not given) but the collaborator
returned an empty map, the run halts (`return` at line 323) before any file is
written — result `none`.  Otherwise the header gains the institution column
exactly when the map is nonempty, each row is enriched, and the snapshot/master
step runs. -/
def runExtractionAndSave (skipMapping : Bool) (instMap : InstMap)
    (headers0 : List String) (rows0 : List Row) (fs : FsState) :
    FsState × Option (Except RecError Unit) :=
  if ¬skipMapping ∧ instMap.isEmpty then (fs, none)
  else
    let headers := if instMap.isEmpty then headers0 else headers0 ++ [INST_COL]
    let rows := rows0.map (enrichRow instMap)
    let (fs', res) := saveStep fs headers rows
    (fs', some res)

/-! ### The hybrid click primitive (src/main.py lines 79-138) -/

/-- Exception categories visible to `main`'s handlers: a
`PlaywrightTimeoutError` or any other `Exception`. -/
inductive PyErr
  | timeoutErr
  | unexpectedErr
deriving DecidableEq, Repr

/-- Outcome of the forceful click attempt (lines 118-125): success, or either
kind of exception — both kinds are caught and fall through to the next step. -/
inductive ClickAttemptResult
  | success
  | timeoutFail
  | otherFail
deriving DecidableEq, Repr

/-- The environment a single `click_row_by_text` call runs against: whether the
three visibility waits succeed, and what each of the three click strategies
would do if executed. -/
structure ClickEnv where
  tableVisible : Bool
  rowVisible : Bool
  targetVisible : Bool
  forcefulClick : ClickAttemptResult
  dispatchFail : Option PyErr
  evalFail : Option PyErr
deriving DecidableEq, Repr

/-- `click_row_by_text` (lines 92-138): the visibility waits raise a timeout
before any strategy runs; strategy 1 (forceful click, lines 118-125) returns
on success and is caught otherwise; strategy 2 (`dispatch_event`, line 129)
runs unguarded — its exception propagates and its success is not detected;
strategy 3 (page-scoped JS click, lines 135-138) always follows strategy 2.
Returns the list of strategies attempted and the call's outcome. -/
def clickRowByText (env : ClickEnv) : List Nat × Except PyErr Unit :=
  if env.tableVisible = false then ([], .error .timeoutErr)
  else if env.rowVisible = false then ([], .error .timeoutErr)
  else if env.targetVisible = false then ([], .error .timeoutErr)
  else
    match env.forcefulClick with
    | .success => ([1], .ok ())
    | _ =>
      match env.dispatchFail with
      | some e => ([1, 2], .error e)
      | none =>
        match env.evalFail with
        | some e => ([1, 2, 3], .error e)
        | none => ([1, 2, 3], .ok ())

/-! ### The top-level pipeline and its error handling (src/main.py lines 229-407) -/

/-- How the run finished inside the `try` block: all steps done, or the early
`return` at line 323 when the institution map was required but empty. -/
inductive BodyOutcome
  | completed
  | haltedNoInstMap
deriving DecidableEq, Repr

/-- The two `except` clauses at lines 400-403: a timeout is logged as "A
timeout occurred", everything else as "An unexpected error occurred". -/
inductive ErrCategory
  | timeoutCategory
  | unexpectedCategory
deriving DecidableEq, Repr

/-- Which handler a raised exception reaches. -/
def categorize : PyErr → ErrCategory
  | .timeoutErr => .timeoutCategory
  | .unexpectedErr => .unexpectedCategory

/-- The outside world one `main` invocation runs against: the outcome of each
awaited pipeline step, the click environment, the intercepted response, the
parsed table content, and the collaborator's institution map. -/
structure MainEnv where
  loginFail : Option PyErr
  postLoginUrlTimeout : Bool
  tabsVisibleTimeout : Bool
  prevMonthTableTimeout : Bool
  clickEnv : ClickEnv
  responseTimeout : Bool
  responseStatus : Nat
  chiuvimTableFound : Bool
  skipMapping : Bool
  instMap : InstMap
  headers0 : List String
  rows0 : List Row

/-- The body of `main`'s `try` block (lines 251-398): login, the three waits,
the intercepted click, the status check (line 301), the table lookup (line
311), then extraction and reconciliation.  The first failing step raises; disk
state is threaded through and only touched by the final save step. -/
def mainBody (env : MainEnv) (fs : FsState) : FsState × Except PyErr BodyOutcome :=
  match env.loginFail with
  | some e => (fs, .error e)
  | none =>
    if env.postLoginUrlTimeout then (fs, .error .timeoutErr)
    else if env.tabsVisibleTimeout then (fs, .error .timeoutErr)
    else if env.prevMonthTableTimeout then (fs, .error .timeoutErr)
    else
      match (clickRowByText env.clickEnv).2 with
      | .error e => (fs, .error e)
      | .ok _ =>
        if env.responseTimeout then (fs, .error .timeoutErr)
        else if env.responseStatus ≠ 200 then (fs, .error .unexpectedErr)
        else if env.chiuvimTableFound = false then (fs, .error .unexpectedErr)
        else
          match runExtractionAndSave env.skipMapping env.instMap env.headers0 env.rows0 fs with
          | (fs', none) => (fs', .ok .haltedNoInstMap)
          | (fs', some (.error _)) => (fs', .error .unexpectedErr)
          | (fs', some (.ok _)) => (fs', .ok .completed)

/-- What is observable when the process ends: whether `browser.close()` ran,
which error category (if any) the handlers logged, and the process exit code. -/
structure MainExit where
  browserClosed : Bool
  loggedError : Option ErrCategory
  exitCode : Nat
deriving DecidableEq, Repr

/-- The `try`/`except`/`finally` at lines 400-407 around the body: every
exception is caught and logged by category, the `finally` closes the browser
on every path, and `main` returns normally — `asyncio.run` completes and the
interpreter exits with status 0 whether or not an error was logged. -/
def runMain (env : MainEnv) (fs : FsState) : FsState × MainExit :=
  let (fs', res) := mainBody env fs
  (fs', { browserClosed := true
        , loggedError := match res with
            | .ok _ => none
            | .error e => some (categorize e)
        , exitCode := 0 })

/-! ### Startup configuration logging (src/main.py lines 239-244) -/

/-- The parsed command-line arguments (p. `parse_args`, lines 23-50). -/
structure CliArgs where
  username : String
  password : String
  url : String
  headless : Bool
  skipInstitutionMapping : Bool
  runOutputDir : String
deriving DecidableEq, Repr

/-- Lines 240-242: a copy of the argument dict with the password replaced by
the fixed eight-asterisk mask. -/
def maskPassword (a : CliArgs) : CliArgs := { a with password := "********" }

/-- One hexadecimal digit, lowercase, as produced by `json.dumps`. -/
def hexDigit (n : Nat) : Char := if n < 10 then Char.ofNat (48 + n) else Char.ofNat (87 + n)

/-- `json.dumps` escaping of one character (with `ensure_ascii=False`):
quote, backslash and the named control escapes, `\u00XX` for the remaining
control characters, everything else verbatim. -/
def jsonEscapeChar (c : Char) : String :=
  if c = '"' then "\\\""
  else if c = '\\' then "\\\\"
  else if c = '\n' then "\\n"
  else if c = '\t' then "\\t"
  else if c = '\r' then "\\r"
  else if c.toNat = 8 then "\\b"
  else if c.toNat = 12 then "\\f"
  else if c.toNat < 32 then "\\u00" ++ String.mk [hexDigit (c.toNat / 16), hexDigit (c.toNat % 16)]
  else String.mk [c]

/-- `json.dumps` rendering of a string value. -/
def jsonStr (s : String) : String :=
  "\"" ++ String.join (s.toList.map jsonEscapeChar) ++ "\""

/-- `json.dumps` rendering of a boolean value. -/
def boolJson (b : Bool) : String := if b then "true" else "false"

/-- Line 244: the configuration line logged at startup — the argument dict, in
`argparse` insertion order, serialized after the password has been masked. -/
def configLine (a : CliArgs) : String :=
  let m := maskPassword a
  "Running with configuration: \x7b\"username\": " ++ jsonStr m.username ++
    ", \"password\": " ++ jsonStr m.password ++
    ", \"url\": " ++ jsonStr m.url ++
    ", \"headless\": " ++ boolJson m.headless ++
    ", \"skip_institution_mapping\": " ++ boolJson m.skipInstitutionMapping ++
    ", \"run_output_dir\": " ++ jsonStr m.runOutputDir ++ "\x7d"

/-! ## Lemma toolkit: the Python dict model -/

/-- The entry rewrite `dictSet` applies when the key is already present. -/
def upd (k : String) (v : Row) (q : String × Row) : String × Row :=
  if q.1 = k then (k, v) else q

theorem mem_keysOf {d : Dict} {k : String} :
    k ∈ keysOf d ↔ ∃ v, (k, v) ∈ d := by
  constructor
  · intro h
    rcases List.mem_map.mp h with ⟨p, hp, hk⟩
    exact ⟨p.2, by simpa [← hk] using hp⟩
  · rintro ⟨v, hv⟩
    exact List.mem_map.mpr ⟨(k, v), hv, rfl⟩

theorem dictSet_any_iff {d : Dict} {k : String} :
    d.any (fun p => p.1 = k) = true ↔ k ∈ keysOf d := by
  rw [List.any_eq_true, mem_keysOf]
  constructor
  · rintro ⟨p, hp, hk⟩
    refine ⟨p.2, ?_⟩
    have : p.1 = k := by simpa using hk
    simpa [← this] using hp
  · rintro ⟨v, hv⟩
    exact ⟨(k, v), hv, by simp⟩

theorem dictSet_of_mem {d : Dict} {k : String} (h : k ∈ keysOf d) (v : Row) :
    dictSet d k v = d.map (upd k v) := by
  simp only [dictSet, dictSet_any_iff.mpr h, if_true, upd]
  rfl

theorem dictSet_of_not_mem {d : Dict} {k : String} (h : k ∉ keysOf d) (v : Row) :
    dictSet d k v = d ++ [(k, v)] := by
  have hf : ¬ d.any (fun p => p.1 = k) = true := fun hc => h (dictSet_any_iff.mp hc)
  simp [dictSet, hf]

theorem keysOf_append (d1 d2 : Dict) : keysOf (d1 ++ d2) = keysOf d1 ++ keysOf d2 :=
  List.map_append _ _ _

theorem keysOf_map_upd (d : Dict) (k : String) (v : Row) :
    keysOf (d.map (upd k v)) = keysOf d := by
  simp only [keysOf, List.map_map]
  apply List.map_congr_left
  intro p _
  by_cases hp : p.1 = k <;> simp [upd, hp]

theorem keysOf_dictSet_of_mem {d : Dict} {k : String} (h : k ∈ keysOf d) (v : Row) :
    keysOf (dictSet d k v) = keysOf d := by
  rw [dictSet_of_mem h v, keysOf_map_upd]

theorem nodup_keysOf_dictSet {d : Dict} (hd : (keysOf d).Nodup) (k : String) (v : Row) :
    (keysOf (dictSet d k v)).Nodup := by
  by_cases h : k ∈ keysOf d
  · rwa [keysOf_dictSet_of_mem h v]
  · rw [dictSet_of_not_mem h v, keysOf_append]
    exact hd.append (List.nodup_singleton k)
      (by simpa [keysOf, List.disjoint_singleton] using h)

theorem mem_dictSet {d : Dict} {k : String} {v : Row} {p : String × Row}
    (h : p ∈ dictSet d k v) : p = (k, v) ∨ p ∈ d := by
  by_cases hk : k ∈ keysOf d
  · rw [dictSet_of_mem hk v] at h
    rcases List.mem_map.mp h with ⟨q, hq, hpq⟩
    by_cases hq1 : q.1 = k
    · simp only [upd, hq1, if_true] at hpq
      exact .inl hpq.symm
    · simp only [upd, hq1, if_false] at hpq
      exact .inr (hpq ▸ hq)
  · rw [dictSet_of_not_mem hk v] at h
    rcases List.mem_append.mp h with h | h
    · exact .inr h
    · simp at h
      exact .inl h

theorem dictGet?_nil (k : String) : dictGet? [] k = none := rfl

theorem dictGet?_cons (p : String × Row) (d : Dict) (k : String) :
    dictGet? (p :: d) k = if p.1 = k then some p.2 else dictGet? d k := by
  by_cases hp : p.1 = k <;> simp [dictGet?, List.find?_cons, hp]

theorem mem_keysOf_cons {p : String × Row} {d : Dict} {k : String} :
    k ∈ keysOf (p :: d) ↔ k = p.1 ∨ k ∈ keysOf d := by
  simp [keysOf]

theorem dictGet?_map_upd_self (d : Dict) (k : String) (v : Row) :
    dictGet? (d.map (upd k v)) k = if k ∈ keysOf d then some v else none := by
  induction d with
  | nil => simp [dictGet?, keysOf]
  | cons p d ih =>
    by_cases hp : p.1 = k
    · simp [upd, hp, dictGet?_cons, keysOf]
    · simp only [List.map_cons]
      rw [show upd k v p = p by simp [upd, hp]]
      rw [dictGet?_cons, if_neg hp, ih]
      by_cases hk : k ∈ keysOf d
      · rw [if_pos hk, if_pos (mem_keysOf_cons.mpr (.inr hk))]
      · rw [if_neg hk, if_neg (fun hc => by
          rcases mem_keysOf_cons.mp hc with hc | hc
          · exact hp hc.symm
          · exact hk hc)]

theorem dictGet?_map_upd_ne (d : Dict) {k k' : String} (h : k' ≠ k) (v : Row) :
    dictGet? (d.map (upd k v)) k' = dictGet? d k' := by
  induction d with
  | nil => simp
  | cons p d ih =>
    by_cases hp : p.1 = k
    · rw [List.map_cons, show upd k v p = (k, v) by simp [upd, hp],
        dictGet?_cons, dictGet?_cons]
      rw [if_neg (show ¬(k, v).1 = k' from fun hc => h hc.symm)]
      rw [if_neg (show ¬p.1 = k' from fun hc => h (hc.symm.trans hp))]
      exact ih
    · rw [List.map_cons, show upd k v p = p by simp [upd, hp],
        dictGet?_cons, dictGet?_cons, ih]

theorem dictGet?_append (d1 d2 : Dict) (k : String) :
    dictGet? (d1 ++ d2) k =
      match dictGet? d1 k with
      | some v => some v
      | none => dictGet? d2 k := by
  induction d1 with
  | nil => rfl
  | cons p d ih =>
    rw [List.cons_append, dictGet?_cons, dictGet?_cons]
    by_cases hp : p.1 = k <;> simp [hp, ih]

theorem dictGet?_dictSet_self (d : Dict) (k : String) (v : Row) :
    dictGet? (dictSet d k v) k = some v := by
  by_cases hk : k ∈ keysOf d
  · rw [dictSet_of_mem hk v, dictGet?_map_upd_self, if_pos hk]
  · rw [dictSet_of_not_mem hk v, dictGet?_append]
    have : dictGet? d k = none := by
      cases hfind : d.find? (fun p => p.1 = k) with
      | none => simp [dictGet?, hfind]
      | some p =>
        exfalso
        have hp := List.find?_some hfind
        have hmem := List.mem_of_find?_eq_some hfind
        exact hk (mem_keysOf.mpr ⟨p.2, by
          have : p.1 = k := by simpa using hp
          simpa [← this] using hmem⟩)
    simp [this, dictGet?_cons]

theorem dictGet?_dictSet_ne (d : Dict) {k k' : String} (h : k' ≠ k) (v : Row) :
    dictGet? (dictSet d k v) k' = dictGet? d k' := by
  by_cases hk : k ∈ keysOf d
  · rw [dictSet_of_mem hk v, dictGet?_map_upd_ne d h]
  · rw [dictSet_of_not_mem hk v, dictGet?_append]
    cases hfind : dictGet? d k' with
    | none => simp [hfind, dictGet?_cons, dictGet?_nil, Ne.symm h]
    | some v' => simp [hfind]

/-! ## Lemma toolkit: the merge loop -/

/-- Well-formedness of the merge dict: keys are distinct, and every stored row
actually carries its key at the authorization-number index. -/
def GoodDict (authIdx : Nat) (d : Dict) : Prop :=
  (keysOf d).Nodup ∧ ∀ p ∈ d, rowKeyOf authIdx p.2 = some p.1

theorem goodDict_nil (authIdx : Nat) : GoodDict authIdx [] :=
  ⟨List.nodup_nil, by simp⟩

theorem goodDict_addRow {authIdx : Nat} {d : Dict} (hd : GoodDict authIdx d) (r : Row) :
    GoodDict authIdx (addRow authIdx d r) := by
  unfold addRow
  cases hkey : rowKeyOf authIdx r with
  | none => exact hd
  | some k =>
    refine ⟨nodup_keysOf_dictSet hd.1 k r, ?_⟩
    intro p hp
    rcases mem_dictSet hp with hp | hp
    · rw [hp]
      exact hkey
    · exact hd.2 p hp

theorem goodDict_addRows {authIdx : Nat} {d : Dict} (hd : GoodDict authIdx d)
    (rows : List Row) : GoodDict authIdx (addRows authIdx d rows) := by
  induction rows generalizing d with
  | nil => exact hd
  | cons r rs ih => exact ih (goodDict_addRow hd r)

theorem addRow_of_key {authIdx : Nat} {r : Row} {k : String}
    (h : rowKeyOf authIdx r = some k) (d : Dict) : addRow authIdx d r = dictSet d k r := by
  unfold addRow
  rw [h]

theorem addRow_of_none {authIdx : Nat} {r : Row}
    (h : rowKeyOf authIdx r = none) (d : Dict) : addRow authIdx d r = d := by
  unfold addRow
  rw [h]

theorem addRows_cons (authIdx : Nat) (d : Dict) (r : Row) (rs : List Row) :
    addRows authIdx d (r :: rs) = addRows authIdx (addRow authIdx d r) rs := rfl

theorem lastRowWithKey_cons (authIdx : Nat) (r : Row) (rs : List Row) (k : String) :
    lastRowWithKey authIdx (r :: rs) k =
      match lastRowWithKey authIdx rs k with
      | some r' => some r'
      | none => if rowKeyOf authIdx r = some k then some r else none := rfl

theorem dictGet?_addRows (authIdx : Nat) (d : Dict) (rows : List Row) (k : String) :
    dictGet? (addRows authIdx d rows) k =
      match lastRowWithKey authIdx rows k with
      | some r => some r
      | none => dictGet? d k := by
  induction rows generalizing d with
  | nil => rfl
  | cons r rs ih =>
    rw [addRows_cons, ih, lastRowWithKey_cons]
    cases hlast : lastRowWithKey authIdx rs k with
    | some r' => rfl
    | none =>
      simp only
      cases hkey : rowKeyOf authIdx r with
      | none =>
        rw [addRow_of_none hkey, if_neg (by simp [hkey])]
      | some k' =>
        by_cases hk : k' = k
        · subst hk
          rw [addRow_of_key hkey, if_pos rfl, dictGet?_dictSet_self]
        · rw [addRow_of_key hkey, if_neg (by simp [hk]),
            dictGet?_dictSet_ne d (fun hc => hk hc.symm) r]

theorem mem_keysOf_dictSet {d : Dict} {k k' : String} {v : Row} :
    k' ∈ keysOf (dictSet d k v) ↔ k' = k ∨ k' ∈ keysOf d := by
  by_cases hmem : k ∈ keysOf d
  · rw [keysOf_dictSet_of_mem hmem v]
    constructor
    · exact .inr
    · rintro (rfl | h)
      · exact hmem
      · exact h
  · rw [dictSet_of_not_mem hmem v, keysOf_append]
    constructor
    · intro h
      rcases List.mem_append.mp h with h | h
      · exact .inr h
      · exact .inl (by simpa [keysOf] using h)
    · rintro (rfl | h)
      · exact List.mem_append_right _ (by simp [keysOf])
      · exact List.mem_append_left _ h

theorem mem_keysOf_addRows {authIdx : Nat} {d : Dict} {rows : List Row} {k : String} :
    k ∈ keysOf (addRows authIdx d rows) ↔
      k ∈ keysOf d ∨ ∃ r ∈ rows, rowKeyOf authIdx r = some k := by
  induction rows generalizing d with
  | nil => simp [addRows]
  | cons r rs ih =>
    rw [addRows_cons, ih]
    cases hkey : rowKeyOf authIdx r with
    | none =>
      rw [addRow_of_none hkey]
      constructor
      · rintro (h | ⟨r', hr', hk⟩)
        · exact .inl h
        · exact .inr ⟨r', List.mem_cons_of_mem r hr', hk⟩
      · rintro (h | ⟨r', hr', hk⟩)
        · exact .inl h
        · rcases List.mem_cons.mp hr' with rfl | hr'
          · rw [hkey] at hk
            cases hk
          · exact .inr ⟨r', hr', hk⟩
    | some k' =>
      rw [addRow_of_key hkey, ]
      constructor
      · rintro (h | ⟨r', hr', hk⟩)
        · rcases mem_keysOf_dictSet.mp h with rfl | h
          · exact .inr ⟨r, List.mem_cons_self r rs, hkey⟩
          · exact .inl h
        · exact .inr ⟨r', List.mem_cons_of_mem r hr', hk⟩
      · rintro (h | ⟨r', hr', hk⟩)
        · exact .inl (mem_keysOf_dictSet.mpr (.inr h))
        · rcases List.mem_cons.mp hr' with rfl | hr'
          · rw [hkey] at hk
            have : k' = k := by cases hk; rfl
            exact .inl (mem_keysOf_dictSet.mpr (.inl this.symm))
          · exact .inr ⟨r', hr', hk⟩

theorem keysOf_addRows_of_covered {authIdx : Nat} {d : Dict} {rows : List Row}
    (h : ∀ r ∈ rows, ∀ k, rowKeyOf authIdx r = some k → k ∈ keysOf d) :
    keysOf (addRows authIdx d rows) = keysOf d := by
  induction rows generalizing d with
  | nil => rfl
  | cons r rs ih =>
    rw [addRows_cons]
    have hstep : keysOf (addRow authIdx d r) = keysOf d := by
      cases hkey : rowKeyOf authIdx r with
      | none => rw [addRow_of_none hkey]
      | some k =>
        rw [addRow_of_key hkey]
        exact keysOf_dictSet_of_mem (h r (List.mem_cons_self r rs) k hkey) r
    have hcov : ∀ r' ∈ rs, ∀ k, rowKeyOf authIdx r' = some k →
        k ∈ keysOf (addRow authIdx d r) := by
      intro r' hr' k hk
      rw [hstep]
      exact h r' (List.mem_cons_of_mem r hr') k hk
    rw [ih hcov, hstep]

theorem mem_addRows {authIdx : Nat} {d : Dict} {rows : List Row} {p : String × Row}
    (h : p ∈ addRows authIdx d rows) : p ∈ d ∨ p.2 ∈ rows := by
  induction rows generalizing d with
  | nil => exact .inl h
  | cons r rs ih =>
    rw [addRows_cons] at h
    rcases ih h with h | h
    · cases hkey : rowKeyOf authIdx r with
      | none =>
        rw [addRow_of_none hkey] at h
        exact .inl h
      | some k =>
        rw [addRow_of_key hkey] at h
        rcases mem_dictSet h with h | h
        · exact .inr (by rw [h]; exact List.mem_cons_self r rs)
        · exact .inl h
    · exact .inr (List.mem_cons_of_mem r h)

theorem addRows_fresh {authIdx : Nat} (kf : Row → String) :
    ∀ {rows : List Row} {d : Dict},
      (∀ r ∈ rows, rowKeyOf authIdx r = some (kf r)) →
      (rows.map kf).Nodup →
      (∀ r ∈ rows, kf r ∉ keysOf d) →
      addRows authIdx d rows = d ++ rows.map (fun r => (kf r, r))
  | [], d, _, _, _ => by simp [addRows]
  | r :: rs, d, hkeys, hnodup, hfresh => by
    rw [List.map_cons] at hnodup
    have hnr := List.nodup_cons.mp hnodup
    rw [addRows_cons]
    have hkr := hkeys r (List.mem_cons_self r rs)
    have hstep : addRow authIdx d r = d ++ [(kf r, r)] := by
      rw [addRow_of_key hkr]
      exact dictSet_of_not_mem (hfresh r (List.mem_cons_self r rs)) r
    rw [hstep]
    have hne : ∀ r' ∈ rs, kf r' ≠ kf r := by
      intro r' hr' hc
      exact hnr.1 (hc ▸ List.mem_map_of_mem kf hr')
    rw [addRows_fresh kf (fun r' hr' => hkeys r' (List.mem_cons_of_mem r hr')) hnr.2
      (by
        intro r' hr'
        rw [keysOf_append]
        intro hmem
        rcases List.mem_append.mp hmem with hmem | hmem
        · exact hfresh r' (List.mem_cons_of_mem r hr') hmem
        · have : kf r' = kf r := by simpa [keysOf] using hmem
          exact hne r' hr' this)]
    simp

theorem dictGet?_eq_none_iff {d : Dict} {k : String} :
    dictGet? d k = none ↔ k ∉ keysOf d := by
  induction d with
  | nil => simp [dictGet?_nil, keysOf]
  | cons p d ih =>
    rw [dictGet?_cons]
    by_cases hp : p.1 = k
    · simp [← hp, mem_keysOf_cons]
    · rw [if_neg hp, ih]
      constructor
      · intro h hc
        rcases mem_keysOf_cons.mp hc with hc | hc
        · exact hp hc.symm
        · exact h hc
      · intro h hc
        exact h (mem_keysOf_cons.mpr (.inr hc))

theorem mem_of_dictGet?_some {d : Dict} {k : String} {v : Row}
    (h : dictGet? d k = some v) : (k, v) ∈ d := by
  induction d with
  | nil => simp [dictGet?_nil] at h
  | cons p d ih =>
    rw [dictGet?_cons] at h
    by_cases hp : p.1 = k
    · rw [if_pos hp] at h
      have : p = (k, v) := by
        cases h
        exact Prod.ext hp rfl
      exact this ▸ List.mem_cons_self p d
    · rw [if_neg hp] at h
      exact List.mem_cons_of_mem p (ih h)

theorem dictGet?_of_mem {d : Dict} (hnd : (keysOf d).Nodup) {k : String} {v : Row}
    (h : (k, v) ∈ d) : dictGet? d k = some v := by
  induction d with
  | nil => simp at h
  | cons p d ih =>
    rw [dictGet?_cons]
    rcases List.mem_cons.mp h with rfl | h
    · rw [if_pos rfl]
    · have hnd' := List.nodup_cons.mp (show (p.1 :: keysOf d).Nodup from hnd)
      have hne : ¬ p.1 = k := by
        intro hc
        exact hnd'.1 (hc ▸ mem_keysOf.mpr ⟨v, h⟩)
      rw [if_neg hne]
      exact ih hnd'.2 h

theorem dictGet?_congr_perm {d1 d2 : Dict} (hperm : List.Perm d1 d2)
    (hnd : (keysOf d1).Nodup) (k : String) : dictGet? d1 k = dictGet? d2 k := by
  have hnd2 : (keysOf d2).Nodup := by
    have hkp : List.Perm (keysOf d1) (keysOf d2) :=
      show List.Perm (d1.map (fun p => p.1)) (d2.map (fun p => p.1)) from
        hperm.map (fun p => p.1)
    exact hkp.nodup_iff.mp hnd
  cases hget : dictGet? d1 k with
  | some v =>
    exact (dictGet?_of_mem hnd2 (hperm.mem_iff.mp (mem_of_dictGet?_some hget))).symm
  | none =>
    have : k ∉ keysOf d2 := by
      intro hc
      rcases mem_keysOf.mp hc with ⟨v, hv⟩
      exact dictGet?_eq_none_iff.mp hget (mem_keysOf.mpr ⟨v, hperm.mem_iff.mpr hv⟩)
    exact (dictGet?_eq_none_iff.mpr this).symm

theorem dict_ext : ∀ {d1 d2 : Dict}, keysOf d1 = keysOf d2 → (keysOf d1).Nodup →
    (∀ k, dictGet? d1 k = dictGet? d2 k) → d1 = d2
  | [], [], _, _, _ => rfl
  | [], p :: d2, hkeys, _, _ => by simp [keysOf] at hkeys
  | p :: d1, [], hkeys, _, _ => by simp [keysOf] at hkeys
  | p :: d1, q :: d2, hkeys, hnd, hget => by
    have hkey : p.1 = q.1 := by simpa [keysOf] using congrArg (·.headD "") hkeys
    have hval : p.2 = q.2 := by
      have := hget p.1
      rw [dictGet?_cons, dictGet?_cons, if_pos rfl, if_pos hkey.symm] at this
      exact Option.some.inj this
    have hnd' := List.nodup_cons.mp (show (p.1 :: keysOf d1).Nodup from hnd)
    have htail : d1 = d2 := by
      refine dict_ext ?_ hnd'.2 ?_
      · simpa [keysOf] using congrArg List.tail hkeys
      · intro k
        by_cases hk : p.1 = k
        · subst hk
          have h1 : dictGet? d1 p.1 = none :=
            dictGet?_eq_none_iff.mpr (by simpa [keysOf] using hnd'.1)
          have h2 : dictGet? d2 p.1 = none := by
            refine dictGet?_eq_none_iff.mpr ?_
            have : keysOf d1 = keysOf d2 := by
              simpa [keysOf] using congrArg List.tail hkeys
            rw [← this]
            simpa [keysOf] using hnd'.1
          rw [h1, h2]
        · have := hget k
          rwa [dictGet?_cons, dictGet?_cons, if_neg hk,
            if_neg (fun hc => hk (hkey.trans hc))] at this
    rw [Prod.ext hkey hval, htail]

/-! ## Lemma toolkit: keyed sorting -/

theorem keyRows_eq_some {vals : List Row} {keyed : List (Nat × Row)}
    (h : keyRows vals = some keyed) :
    keyed.map (·.2) = vals ∧ ∀ p ∈ keyed, rowDate p.2 = some p.1 := by
  induction vals generalizing keyed with
  | nil =>
    cases h
    exact ⟨rfl, by simp⟩
  | cons r rs ih =>
    unfold keyRows at h
    cases hdate : rowDate r with
    | none => rw [hdate] at h; cases h
    | some dt =>
      rw [hdate] at h
      cases hrest : keyRows rs with
      | none => rw [hrest] at h; cases h
      | some ps =>
        rw [hrest] at h
        cases h
        rcases ih hrest with ⟨hmap, hprop⟩
        refine ⟨by simp [hmap], ?_⟩
        intro p hp
        rcases List.mem_cons.mp hp with rfl | hp
        · exact hdate
        · exact hprop p hp

theorem keyRows_of_all_some {vals : List Row} (h : ∀ r ∈ vals, (rowDate r).isSome) :
    keyRows vals = some (vals.map (fun r => (dateOf r, r))) := by
  induction vals with
  | nil => rfl
  | cons r rs ih =>
    have hr := h r (List.mem_cons_self r rs)
    cases hdate : rowDate r with
    | none => rw [hdate] at hr; cases hr
    | some dt =>
      unfold keyRows
      rw [hdate, ih (fun r' hr' => h r' (List.mem_cons_of_mem r hr'))]
      simp [dateOf, hdate]

theorem sortRows_perm {vals : List Row} {m : List Row} (h : sortRows vals = some m) :
    List.Perm m vals := by
  unfold sortRows at h
  cases hkey : keyRows vals with
  | none => rw [hkey] at h; cases h
  | some keyed =>
    rw [hkey] at h
    cases h
    rcases keyRows_eq_some hkey with ⟨hmap, _⟩
    calc List.Perm ((List.insertionSort rowDesc keyed).map (·.2)) (keyed.map (·.2)) :=
        (List.perm_insertionSort rowDesc keyed).map _
      _ = vals := hmap

theorem sortRows_all_parse {vals : List Row} {m : List Row} (h : sortRows vals = some m) :
    ∀ r ∈ m, (rowDate r).isSome := by
  intro r hr
  unfold sortRows at h
  cases hkey : keyRows vals with
  | none => rw [hkey] at h; cases h
  | some keyed =>
    rw [hkey] at h
    cases h
    rcases List.mem_map.mp hr with ⟨p, hp, hpr⟩
    have hp' : p ∈ keyed := (List.perm_insertionSort rowDesc keyed).mem_iff.mp hp
    rw [← hpr, (keyRows_eq_some hkey).2 p hp']
    rfl

theorem sortRows_sorted {vals : List Row} {m : List Row} (h : sortRows vals = some m) :
    List.Sorted (fun a b => dateOf b ≤ dateOf a) m := by
  unfold sortRows at h
  cases hkey : keyRows vals with
  | none => rw [hkey] at h; cases h
  | some keyed =>
    rw [hkey] at h
    cases h
    have hsorted : List.Sorted rowDesc (List.insertionSort rowDesc keyed) :=
      List.sorted_insertionSort rowDesc keyed
    have hdates : ∀ p ∈ List.insertionSort rowDesc keyed, rowDate p.2 = some p.1 := by
      intro p hp
      exact (keyRows_eq_some hkey).2 p
        ((List.perm_insertionSort rowDesc keyed).mem_iff.mp hp)
    rw [List.Sorted, List.pairwise_map]
    refine hsorted.imp_of_mem ?_
    intro a b ha hb hab
    have hda : dateOf a.2 = a.1 := by rw [dateOf, hdates a ha]; rfl
    have hdb : dateOf b.2 = b.1 := by rw [dateOf, hdates b hb]; rfl
    rw [hda, hdb]
    exact hab

theorem sortRows_fixed {m : List Row} (hparse : ∀ r ∈ m, (rowDate r).isSome)
    (hsorted : List.Sorted (fun a b => dateOf b ≤ dateOf a) m) :
    sortRows m = some m := by
  unfold sortRows
  rw [keyRows_of_all_some hparse]
  have hs : List.Sorted rowDesc (m.map (fun r => (dateOf r, r))) := by
    rw [List.Sorted, List.pairwise_map]
    exact hsorted
  show some ((List.insertionSort rowDesc (m.map (fun r => (dateOf r, r)))).map (fun p => p.2)) =
    some m
  rw [hs.insertionSort_eq, List.map_map]
  congr 1
  exact (List.map_congr_left (fun r _ => rfl)).trans (List.map_id m)

/-! ## Lemma toolkit: the reconciliation step -/

theorem reconcile_eq_of_idx {hdr : List String} {authIdx : Nat}
    (hidx : hdr.findIdx? (· = AUTH_COL) = some authIdx) (master rows : List Row) :
    reconcile hdr master rows =
      match sortRows ((addRows authIdx (addRows authIdx [] master) rows).map (fun p => p.2)) with
      | none => .error .dateParseFailure
      | some sorted => .ok sorted := by
  unfold reconcile
  rw [hidx]

theorem reconcile_eq_of_no_idx {hdr : List String}
    (hidx : hdr.findIdx? (· = AUTH_COL) = none) (master rows : List Row) :
    reconcile hdr master rows = .error .missingReconciliationKey := by
  unfold reconcile
  rw [hidx]

/-- The key of a row as a plain string; meaningful on rows long enough to
carry the authorization-number column. -/
def keyFn (authIdx : Nat) (r : Row) : String := (rowKeyOf authIdx r).getD ""

theorem values_of_pairs (m : List Row) (f : Row → String) :
    (m.map (fun r => (f r, r))).map (fun p : String × Row => p.2) = m := by
  rw [List.map_map]
  exact (List.map_congr_left (fun r _ => rfl)).trans (List.map_id m)

theorem goodDict_pairs_eq {authIdx : Nat} {d : Dict} (hd : GoodDict authIdx d) :
    d.map (fun p => (keyFn authIdx p.2, p.2)) = d := by
  refine (List.map_congr_left ?_).trans (List.map_id d)
  intro p hp
  have hkey := hd.2 p hp
  show (keyFn authIdx p.2, p.2) = p
  rw [keyFn, hkey]
  rfl

theorem goodDict_value_key {authIdx : Nat} {d : Dict} (hd : GoodDict authIdx d) {r : Row}
    (hr : r ∈ d.map (fun p => p.2)) : rowKeyOf authIdx r = some (keyFn authIdx r) := by
  rcases List.mem_map.mp hr with ⟨p, hp, hpr⟩
  have hkey := hd.2 p hp
  rw [← hpr, keyFn, hkey]
  rfl

/-- After a successful first reconciliation, re-keying its output gives back
the first run's dict up to permutation, and merging the same extracted rows
into it changes nothing: every key the rows touch already holds the same row. -/
theorem addRows_reconciled {authIdx : Nat} {master rows m1 : List Row}
    (hperm1 : List.Perm m1
      ((addRows authIdx (addRows authIdx [] master) rows).map (fun p => p.2))) :
    addRows authIdx [] m1 = m1.map (fun r => (keyFn authIdx r, r)) ∧
    addRows authIdx (addRows authIdx [] m1) rows = addRows authIdx [] m1 := by
  set D1 := addRows authIdx (addRows authIdx [] master) rows with hD1
  have hG : GoodDict authIdx D1 :=
    goodDict_addRows (goodDict_addRows (goodDict_nil authIdx) master) rows
  have hkeys1 : ∀ r ∈ m1, rowKeyOf authIdx r = some (keyFn authIdx r) := by
    intro r hr
    exact goodDict_value_key hG (hperm1.mem_iff.mp hr)
  have hpairs : List.Perm (m1.map (fun r => (keyFn authIdx r, r))) D1 := by
    have h1 : List.Perm (m1.map (fun r => (keyFn authIdx r, r)))
        ((D1.map (fun p => p.2)).map (fun r => (keyFn authIdx r, r))) :=
      hperm1.map _
    have h2 : (D1.map (fun p => p.2)).map (fun r => (keyFn authIdx r, r)) = D1 := by
      rw [List.map_map]
      exact goodDict_pairs_eq hG
    rwa [h2] at h1
  have hnodup0 : (keysOf (m1.map (fun r => (keyFn authIdx r, r)))).Nodup := by
    have hkp : List.Perm (keysOf (m1.map (fun r => (keyFn authIdx r, r)))) (keysOf D1) :=
      show List.Perm ((m1.map (fun r => (keyFn authIdx r, r))).map (fun p => p.1))
          (D1.map (fun p => p.1)) from hpairs.map (fun p => p.1)
    exact hkp.nodup_iff.mpr hG.1
  have hD0 : addRows authIdx [] m1 = m1.map (fun r => (keyFn authIdx r, r)) := by
    have hnodupkf : (m1.map (keyFn authIdx)).Nodup := by
      have heq : (m1.map (fun r => (keyFn authIdx r, r))).map (fun p : String × Row => p.1) =
          m1.map (keyFn authIdx) := by
        rw [List.map_map]
        exact List.map_congr_left (fun r _ => rfl)
      rw [← heq]
      exact hnodup0
    have hfresh : ∀ r ∈ m1, keyFn authIdx r ∉ keysOf ([] : Dict) := by
      intro r _ hc
      simp [keysOf] at hc
    have := addRows_fresh (keyFn authIdx) hkeys1 hnodupkf hfresh
    simpa using this
  refine ⟨hD0, ?_⟩
  rw [hD0]
  set D0 := m1.map (fun r => (keyFn authIdx r, r)) with hD0def
  have hcov : ∀ r ∈ rows, ∀ k, rowKeyOf authIdx r = some k → k ∈ keysOf D0 := by
    intro r hr k hk
    have hmem : k ∈ keysOf D1 :=
      mem_keysOf_addRows.mpr (.inr ⟨r, hr, hk⟩)
    have hkp : List.Perm (keysOf D0) (keysOf D1) :=
      show List.Perm (D0.map (fun p => p.1)) (D1.map (fun p => p.1)) from
        hpairs.map (fun p => p.1)
    exact hkp.mem_iff.mpr hmem
  have hkeysD2 : keysOf (addRows authIdx D0 rows) = keysOf D0 :=
    keysOf_addRows_of_covered hcov
  have hlookup : ∀ k, dictGet? (addRows authIdx D0 rows) k = dictGet? D0 k := by
    intro k
    rw [dictGet?_addRows]
    cases hlast : lastRowWithKey authIdx rows k with
    | none => rfl
    | some r =>
      have hgetD1 : dictGet? D1 k = some r := by
        rw [hD1, dictGet?_addRows, hlast]
      have := dictGet?_congr_perm hpairs hnodup0 k
      rw [hgetD1] at this
      exact this.symm
  exact dict_ext hkeysD2 (hkeysD2 ▸ hnodup0) hlookup

/-- Reconciling a second time with the same header and extracted rows, against
the master dataset the first run produced, returns that dataset unchanged. -/
theorem reconcile_twice {hdr : List String} {master rows m1 : List Row}
    (hok : reconcile hdr master rows = .ok m1) :
    reconcile hdr m1 rows = .ok m1 := by
  cases hidx : hdr.findIdx? (· = AUTH_COL) with
  | none =>
    rw [reconcile_eq_of_no_idx hidx] at hok
    cases hok
  | some authIdx =>
    rw [reconcile_eq_of_idx hidx] at hok
    cases hsort : sortRows ((addRows authIdx (addRows authIdx [] master) rows).map
        (fun p => p.2)) with
    | none =>
      rw [hsort] at hok
      cases hok
    | some sorted =>
      rw [hsort] at hok
      have hm1 : sorted = m1 := by
        cases hok
        rfl
      subst hm1
      have hperm1 := sortRows_perm hsort
      rcases addRows_reconciled hperm1 with ⟨hD0, hfix⟩
      rw [reconcile_eq_of_idx hidx, hfix, hD0, values_of_pairs,
        sortRows_fixed (sortRows_all_parse hsort) (sortRows_sorted hsort)]

/-- Success/permutation/sortedness facts extracted from a successful
reconciliation. -/
theorem reconcile_ok_facts {hdr : List String} {master rows m : List Row} {authIdx : Nat}
    (hidx : hdr.findIdx? (· = AUTH_COL) = some authIdx)
    (hok : reconcile hdr master rows = .ok m) :
    List.Perm m ((addRows authIdx (addRows authIdx [] master) rows).map (fun p => p.2)) ∧
    (∀ r ∈ m, (rowDate r).isSome) ∧
    List.Sorted (fun a b => dateOf b ≤ dateOf a) m := by
  rw [reconcile_eq_of_idx hidx] at hok
  cases hsort : sortRows ((addRows authIdx (addRows authIdx [] master) rows).map
      (fun p => p.2)) with
  | none =>
    rw [hsort] at hok
    cases hok
  | some sorted =>
    rw [hsort] at hok
    have hm : sorted = m := by
      cases hok
      rfl
    subst hm
    exact ⟨sortRows_perm hsort, sortRows_all_parse hsort, sortRows_sorted hsort⟩

theorem saveStep_eq (fs : FsState) (hdr : List String) (rows : List Row) :
    saveStep fs hdr rows =
      match reconcile hdr (masterRowsOf fs) rows with
      | .error e => ({ fs with snapshots := fs.snapshots ++ [(hdr, rows)] }, .error e)
      | .ok sorted =>
          ({ master := some (hdr, sorted), snapshots := fs.snapshots ++ [(hdr, rows)] },
            .ok ()) := rfl

theorem saveStep_of_reconcile_ok {fs : FsState} {hdr : List String} {rows m : List Row}
    (hrec : reconcile hdr (masterRowsOf fs) rows = .ok m) :
    saveStep fs hdr rows =
      ({ master := some (hdr, m), snapshots := fs.snapshots ++ [(hdr, rows)] }, .ok ()) := by
  rw [saveStep_eq, hrec]

theorem saveStep_of_reconcile_error {fs : FsState} {hdr : List String} {rows : List Row}
    {e : RecError} (hrec : reconcile hdr (masterRowsOf fs) rows = .error e) :
    saveStep fs hdr rows =
      ({ fs with snapshots := fs.snapshots ++ [(hdr, rows)] }, .error e) := by
  rw [saveStep_eq, hrec]

theorem saveStep_ok_elim {fs fs1 : FsState} {hdr : List String} {rows : List Row}
    (h : saveStep fs hdr rows = (fs1, .ok ())) :
    ∃ m1, reconcile hdr (masterRowsOf fs) rows = .ok m1 ∧
      fs1 = { master := some (hdr, m1), snapshots := fs.snapshots ++ [(hdr, rows)] } := by
  cases hrec : reconcile hdr (masterRowsOf fs) rows with
  | error e =>
    rw [saveStep_of_reconcile_error hrec] at h
    cases (Prod.ext_iff.mp h).2
  | ok m1 =>
    rw [saveStep_of_reconcile_ok hrec] at h
    exact ⟨m1, rfl, (Prod.ext_iff.mp h).1.symm⟩

theorem saveStep_error_elim {fs fs' : FsState} {hdr : List String} {rows : List Row}
    {e : RecError} (h : saveStep fs hdr rows = (fs', .error e)) :
    reconcile hdr (masterRowsOf fs) rows = .error e ∧
    fs' = { fs with snapshots := fs.snapshots ++ [(hdr, rows)] } := by
  cases hrec : reconcile hdr (masterRowsOf fs) rows with
  | error e' =>
    rw [saveStep_of_reconcile_error hrec] at h
    rcases Prod.ext_iff.mp h with ⟨hfs, herr⟩
    have he : e' = e := by
      injection herr with he'
    subst he
    exact ⟨rfl, hfs.symm⟩
  | ok m1 =>
    rw [saveStep_of_reconcile_ok hrec] at h
    cases (Prod.ext_iff.mp h).2

theorem reconcile_ok_idx {hdr : List String} {master rows m : List Row}
    (hok : reconcile hdr master rows = .ok m) :
    ∃ authIdx, hdr.findIdx? (· = AUTH_COL) = some authIdx := by
  cases hidx : hdr.findIdx? (· = AUTH_COL) with
  | none =>
    rw [reconcile_eq_of_no_idx hidx] at hok
    cases hok
  | some i => exact ⟨i, rfl⟩

/-! ## Claims -/

/-- Claim C1: for every header list and extracted-row list accepted by
reconciliation (first run succeeds), running the reconciliation step a second
time with the identical header and rows is idempotent: the master dataset on
disk after the second run equals the master dataset after the first run, and
the second run also succeeds. -/
theorem C1_reconciliation_idempotent {fs fs1 : FsState} {hdr : List String}
    {rows : List Row} (h1 : saveStep fs hdr rows = (fs1, .ok ())) :
    (saveStep fs1 hdr rows).1.master = fs1.master ∧
    (saveStep fs1 hdr rows).2 = .ok () := by
  rcases saveStep_ok_elim h1 with ⟨m1, hrec, rfl⟩
  have hrec2 : reconcile hdr
      (masterRowsOf (FsState.mk (some (hdr, m1)) (fs.snapshots ++ [(hdr, rows)]))) rows =
      .ok m1 :=
    reconcile_twice hrec
  rw [saveStep_of_reconcile_ok hrec2]
  exact ⟨rfl, rfl⟩

/-- Witness for C1: a concrete second run over the master file produced by a
first run from an empty output directory. -/
theorem C1_witness :
    (saveStep ⟨some (["Date", AUTH_COL], [["05/02/2024", "A100"], ["01/01/2024", "B200"]]),
        [(["Date", AUTH_COL], [["05/02/2024", "A100"], ["01/01/2024", "B200"]])]⟩
      ["Date", AUTH_COL] [["05/02/2024", "A100"], ["01/01/2024", "B200"]]).1.master =
      (FsState.mk (some (["Date", AUTH_COL],
          [["05/02/2024", "A100"], ["01/01/2024", "B200"]]))
        [(["Date", AUTH_COL], [["05/02/2024", "A100"], ["01/01/2024", "B200"]])]).master ∧
    (saveStep ⟨some (["Date", AUTH_COL], [["05/02/2024", "A100"], ["01/01/2024", "B200"]]),
        [(["Date", AUTH_COL], [["05/02/2024", "A100"], ["01/01/2024", "B200"]])]⟩
      ["Date", AUTH_COL] [["05/02/2024", "A100"], ["01/01/2024", "B200"]]).2 =
      .ok () :=
  C1_reconciliation_idempotent (show saveStep ⟨none, []⟩ ["Date", AUTH_COL]
    [["05/02/2024", "A100"], ["01/01/2024", "B200"]] =
    (⟨some (["Date", AUTH_COL], [["05/02/2024", "A100"], ["01/01/2024", "B200"]]),
      [(["Date", AUTH_COL], [["05/02/2024", "A100"], ["01/01/2024", "B200"]])]⟩,
      .ok ()) from by decide)

/-- Claim C2: after every successful reconciliation run, the rows written to
the master file all parse as DD/MM/YYYY dates and are sorted by that date,
descending: for all adjacent pairs (a, b) in the written file,
date(a) ≥ date(b). -/
theorem C2_master_sorted_newest_first {fs fs1 : FsState} {hdr hdr1 : List String}
    {rows m : List Row}
    (h1 : saveStep fs hdr rows = (fs1, .ok ()))
    (h2 : fs1.master = some (hdr1, m)) :
    (∀ r ∈ m, (rowDate r).isSome) ∧
    List.Chain' (fun a b => dateOf b ≤ dateOf a) m := by
  rcases saveStep_ok_elim h1 with ⟨m1, hrec, rfl⟩
  have hm : m1 = m := by
    have := (Option.some.inj h2)
    exact (Prod.ext_iff.mp this).2
  subst hm
  rcases reconcile_ok_idx hrec with ⟨authIdx, hidx⟩
  rcases reconcile_ok_facts hidx hrec with ⟨_, hparse, hsorted⟩
  exact ⟨hparse, hsorted.chain'⟩

/-- Witness for C2: a run whose extracted rows arrive oldest-first and come
back newest-first in the master file. -/
theorem C2_witness :
    (∀ r ∈ [["05/02/2024", "B200"], ["01/01/2024", "A100"]], (rowDate r).isSome) ∧
    List.Chain' (fun a b => dateOf b ≤ dateOf a)
      [["05/02/2024", "B200"], ["01/01/2024", "A100"]] :=
  C2_master_sorted_newest_first
    (show saveStep ⟨none, []⟩ ["Date", AUTH_COL]
        [["01/01/2024", "A100"], ["05/02/2024", "B200"]] =
      (⟨some (["Date", AUTH_COL], [["05/02/2024", "B200"], ["01/01/2024", "A100"]]),
        [(["Date", AUTH_COL], [["01/01/2024", "A100"], ["05/02/2024", "B200"]])]⟩,
        .ok ()) from by decide)
    (show (FsState.mk (some (["Date", AUTH_COL],
        [["05/02/2024", "B200"], ["01/01/2024", "A100"]]))
      [(["Date", AUTH_COL], [["01/01/2024", "A100"], ["05/02/2024", "B200"]])]).master =
      some (["Date", AUTH_COL], [["05/02/2024", "B200"], ["01/01/2024", "A100"]]) from rfl)

/-- Claim C5: if the newly extracted header does not contain the
authorization-number column, reconciliation fails with the missing-key error
before the merge begins, and the master file on disk is unchanged (only the
per-run snapshot was written). -/
theorem C5_missing_key_no_partial_write {fs : FsState} {hdr : List String}
    {rows : List Row} (hidx : hdr.findIdx? (· = AUTH_COL) = none) :
    saveStep fs hdr rows =
      ({ fs with snapshots := fs.snapshots ++ [(hdr, rows)] },
        .error .missingReconciliationKey) ∧
    (saveStep fs hdr rows).1.master = fs.master := by
  refine ⟨saveStep_of_reconcile_error (reconcile_eq_of_no_idx hidx _ _), ?_⟩
  rw [saveStep_of_reconcile_error (reconcile_eq_of_no_idx hidx _ _)]

/-- Witness for C5: a header with no authorization-number column. -/
theorem C5_witness :
    saveStep ⟨some (["Date", AUTH_COL], [["01/01/2024", "A100"]]), []⟩ ["Date", "Amount"]
        [["02/02/2024", "77"]] =
      ({ FsState.mk (some (["Date", AUTH_COL], [["01/01/2024", "A100"]])) [] with
          snapshots := [] ++ [(["Date", "Amount"], [["02/02/2024", "77"]])] },
        .error .missingReconciliationKey) ∧
    (saveStep ⟨some (["Date", AUTH_COL], [["01/01/2024", "A100"]]), []⟩ ["Date", "Amount"]
        [["02/02/2024", "77"]]).1.master =
      (FsState.mk (some (["Date", AUTH_COL], [["01/01/2024", "A100"]])) []).master :=
  C5_missing_key_no_partial_write (by decide)

/-- Claim C7: when the institution mapping is required (no opt-out flag) and
the collaborator returns an empty map, the run halts without emitting any
rows: no per-run snapshot and no master update is produced. -/
theorem C7_halts_on_empty_institution_map {skip : Bool} {instMap : InstMap}
    (hdr : List String) (rows : List Row) (fs : FsState)
    (hskip : skip = false) (hempty : instMap = []) :
    runExtractionAndSave skip instMap hdr rows fs = (fs, none) := by
  subst hskip
  subst hempty
  simp [runExtractionAndSave]

/-- Witness for C7: a concrete run with required mapping and an empty map. -/
theorem C7_witness :
    runExtractionAndSave false [] ["Date", AUTH_COL] [["01/01/2024", "A100"]]
        ⟨none, []⟩ =
      (⟨none, []⟩, none) :=
  C7_halts_on_empty_institution_map ["Date", AUTH_COL] [["01/01/2024", "A100"]]
    ⟨none, []⟩ rfl rfl

/-- Claim C9: the per-run snapshot is written before any reconciliation step
executes: whenever reconciliation fails (missing key column or unparseable
date), the timestamped snapshot holding exactly the header plus the newly
extracted rows exists, while the master file is unchanged. -/
theorem C9_snapshot_written_before_reconciliation {fs fs' : FsState}
    {hdr : List String} {rows : List Row} {e : RecError}
    (h : saveStep fs hdr rows = (fs', .error e)) :
    fs'.snapshots = fs.snapshots ++ [(hdr, rows)] ∧ fs'.master = fs.master := by
  rcases saveStep_error_elim h with ⟨_, rfl⟩
  exact ⟨rfl, rfl⟩

/-- Witness for C9: a run whose extracted row has an unparseable first field,
so that reconciliation fails at the sorting stage. -/
theorem C9_witness :
    (FsState.mk (some (["Date", AUTH_COL], [["01/01/2024", "A100"]]))
        [(["Date", AUTH_COL], [["not-a-date", "B200"]])]).snapshots =
      (FsState.mk (some (["Date", AUTH_COL], [["01/01/2024", "A100"]])) []).snapshots ++
        [(["Date", AUTH_COL], [["not-a-date", "B200"]])] ∧
    (FsState.mk (some (["Date", AUTH_COL], [["01/01/2024", "A100"]]))
        [(["Date", AUTH_COL], [["not-a-date", "B200"]])]).master =
      (FsState.mk (some (["Date", AUTH_COL], [["01/01/2024", "A100"]])) []).master :=
  C9_snapshot_written_before_reconciliation
    (show saveStep ⟨some (["Date", AUTH_COL], [["01/01/2024", "A100"]]), []⟩
        ["Date", AUTH_COL] [["not-a-date", "B200"]] =
      (⟨some (["Date", AUTH_COL], [["01/01/2024", "A100"]]),
        [(["Date", AUTH_COL], [["not-a-date", "B200"]])]⟩,
        .error .dateParseFailure) from by decide)

/-- Claim C10: the run-configuration line logged at startup is independent of
the supplied password: any two invocations differing only in the password
argument log the identical configuration string, because the password field is
replaced by a fixed mask before serialization. -/
theorem C10_password_never_logged (a : CliArgs) (p1 p2 : String) :
    configLine { a with password := p1 } = configLine { a with password := p2 } := by
  simp [configLine, maskPassword]

/-- Claim C3: across two successive runs whose extracted rows contain the same
authorization-number key, the merged master dataset after the second run maps
that key to exactly the second run's row for it (the last such row extracted),
entirely replacing the first run's row. -/
theorem C3_last_write_wins {hdr : List String} {master rows1 rows2 m1 m2 : List Row}
    {authIdx : Nat} {k : String} {r2 : Row}
    (hidx : hdr.findIdx? (· = AUTH_COL) = some authIdx)
    (h1 : reconcile hdr master rows1 = .ok m1)
    (h2 : reconcile hdr m1 rows2 = .ok m2)
    (hlast : lastRowWithKey authIdx rows2 k = some r2) :
    r2 ∈ m2 ∧ ∀ r ∈ m2, rowKeyOf authIdx r = some k → r = r2 := by
  rcases reconcile_ok_facts hidx h2 with ⟨hperm, _, _⟩
  have hG : GoodDict authIdx (addRows authIdx (addRows authIdx [] m1) rows2) :=
    goodDict_addRows (goodDict_addRows (goodDict_nil authIdx) m1) rows2
  have hget : dictGet? (addRows authIdx (addRows authIdx [] m1) rows2) k = some r2 := by
    rw [dictGet?_addRows, hlast]
  have hmem : (k, r2) ∈ addRows authIdx (addRows authIdx [] m1) rows2 :=
    mem_of_dictGet?_some hget
  have hr2 : r2 ∈ m2 :=
    hperm.mem_iff.mpr (List.mem_map.mpr ⟨(k, r2), hmem, rfl⟩)
  refine ⟨hr2, ?_⟩
  intro r hr hkey
  rcases List.mem_map.mp (hperm.mem_iff.mp hr) with ⟨p, hp, hpr⟩
  have hpkey : rowKeyOf authIdx p.2 = some p.1 := hG.2 p hp
  have hpk : p.1 = k := by
    rw [hpr, hkey] at hpkey
    exact (Option.some.inj hpkey).symm
  have hgetp : dictGet? (addRows authIdx (addRows authIdx [] m1) rows2) p.1 = some p.2 :=
    dictGet?_of_mem hG.1 (show (p.1, p.2) ∈ _ from by
      rw [show (p.1, p.2) = p from rfl]
      exact hp)
  rw [hpk, hget] at hgetp
  rw [← hpr]
  exact (Option.some.inj hgetp).symm

/-- Witness for C3: run one extracts A100 dated 01/01/2024, run two extracts
A100 dated 05/02/2024; the merged master holds exactly the second row. -/
theorem C3_witness :
    (["05/02/2024", "A100"] : Row) ∈ [(["05/02/2024", "A100"] : Row)] ∧
    ∀ r ∈ [(["05/02/2024", "A100"] : Row)], rowKeyOf 1 r = some "A100" →
      r = ["05/02/2024", "A100"] :=
  C3_last_write_wins (by decide)
    (show reconcile ["Date", AUTH_COL] [] [["01/01/2024", "A100"]] =
      .ok [["01/01/2024", "A100"]] from by decide)
    (show reconcile ["Date", AUTH_COL] [["01/01/2024", "A100"]] [["05/02/2024", "A100"]] =
      .ok [["05/02/2024", "A100"]] from by decide)
    (show lastRowWithKey 1 [["05/02/2024", "A100"]] "A100" = some ["05/02/2024", "A100"]
      from by decide)

/-- Counterexample for C4 as stated: an extracted row that is too short to
contain the authorization-number column is silently dropped from the merged
result even though no row with the same key ever overwrote it — the master
ends up empty. -/
theorem C4_counterexample :
    reconcile ["Date", AUTH_COL] [] [["01/01/2024"]] = .ok [] := by decide

/-- Claim C4 (amended): after reconciliation the master holds at most one row
per authorization number; every master row comes from the old master or the
new extraction; a key is present in the result exactly when some input row
carried it; and any input row long enough to carry the key column is either in
the result or displaced by a different row with the same key.  Rows too short
to reach the key column are silently dropped. -/
theorem C4_one_row_per_key_no_silent_drop {hdr : List String}
    {master rows m : List Row} {authIdx : Nat}
    (hidx : hdr.findIdx? (· = AUTH_COL) = some authIdx)
    (hok : reconcile hdr master rows = .ok m) :
    (∀ r ∈ m, r ∈ master ∨ r ∈ rows) ∧
    (∀ r1 ∈ m, ∀ r2 ∈ m, rowKeyOf authIdx r1 = rowKeyOf authIdx r2 → r1 = r2) ∧
    (∀ k : String, (∃ r ∈ m, rowKeyOf authIdx r = some k) ↔
      (∃ r, (r ∈ master ∨ r ∈ rows) ∧ rowKeyOf authIdx r = some k)) ∧
    (∀ r, (r ∈ master ∨ r ∈ rows) → authIdx < r.length →
      r ∈ m ∨ ∃ r', r' ∈ m ∧ r' ≠ r ∧ rowKeyOf authIdx r' = rowKeyOf authIdx r) := by
  rcases reconcile_ok_facts hidx hok with ⟨hperm, _, _⟩
  have hG : GoodDict authIdx (addRows authIdx (addRows authIdx [] master) rows) :=
    goodDict_addRows (goodDict_addRows (goodDict_nil authIdx) master) rows
  have hprov : ∀ r ∈ m, r ∈ master ∨ r ∈ rows := by
    intro r hr
    rcases List.mem_map.mp (hperm.mem_iff.mp hr) with ⟨p, hp, hpr⟩
    rcases mem_addRows hp with hp' | hp'
    · rcases mem_addRows hp' with hp'' | hp''
      · simp at hp''
      · exact .inl (hpr ▸ hp'')
    · exact .inr (hpr ▸ hp')
  have huniq : ∀ r1 ∈ m, ∀ r2 ∈ m, rowKeyOf authIdx r1 = rowKeyOf authIdx r2 → r1 = r2 := by
    intro r1 hr1 r2 hr2 hk
    rcases List.mem_map.mp (hperm.mem_iff.mp hr1) with ⟨p1, hp1, hpr1⟩
    rcases List.mem_map.mp (hperm.mem_iff.mp hr2) with ⟨p2, hp2, hpr2⟩
    have hk1 : rowKeyOf authIdx p1.2 = some p1.1 := hG.2 p1 hp1
    have hk2 : rowKeyOf authIdx p2.2 = some p2.1 := hG.2 p2 hp2
    have hkk : p1.1 = p2.1 := by
      rw [← hpr1, ← hpr2, hk1, hk2] at hk
      exact Option.some.inj hk
    have hg1 : dictGet? (addRows authIdx (addRows authIdx [] master) rows) p1.1 =
        some p1.2 :=
      dictGet?_of_mem hG.1 (show (p1.1, p1.2) ∈ _ from by
        rw [show (p1.1, p1.2) = p1 from rfl]
        exact hp1)
    have hg2 : dictGet? (addRows authIdx (addRows authIdx [] master) rows) p2.1 =
        some p2.2 :=
      dictGet?_of_mem hG.1 (show (p2.1, p2.2) ∈ _ from by
        rw [show (p2.1, p2.2) = p2 from rfl]
        exact hp2)
    rw [← hkk] at hg2
    rw [hg1] at hg2
    rw [← hpr1, ← hpr2]
    exact Option.some.inj hg2
  have hkeys : ∀ k : String, (∃ r ∈ m, rowKeyOf authIdx r = some k) ↔
      (∃ r, (r ∈ master ∨ r ∈ rows) ∧ rowKeyOf authIdx r = some k) := by
    intro k
    constructor
    · rintro ⟨r, hr, hk⟩
      exact ⟨r, hprov r hr, hk⟩
    · rintro ⟨r, hr, hk⟩
      have hmem : k ∈ keysOf (addRows authIdx (addRows authIdx [] master) rows) := by
        rcases hr with hr | hr
        · exact mem_keysOf_addRows.mpr
            (.inl (mem_keysOf_addRows.mpr (.inr ⟨r, hr, hk⟩)))
        · exact mem_keysOf_addRows.mpr (.inr ⟨r, hr, hk⟩)
      rcases mem_keysOf.mp hmem with ⟨v, hv⟩
      refine ⟨v, ?_, ?_⟩
      · exact hperm.mem_iff.mpr (List.mem_map.mpr ⟨(k, v), hv, rfl⟩)
      · exact hG.2 (k, v) hv
  refine ⟨hprov, huniq, hkeys, ?_⟩
  intro r hr hlen
  have hk : rowKeyOf authIdx r = some (keyFn authIdx r) := by
    rw [rowKeyOf, dif_pos hlen]
    rw [keyFn, rowKeyOf, dif_pos hlen]
    rfl
  rcases (hkeys (keyFn authIdx r)).mpr ⟨r, hr, hk⟩ with ⟨r', hr', hk'⟩
  by_cases hrr : r' = r
  · exact .inl (hrr ▸ hr')
  · exact .inr ⟨r', hr', hrr, by rw [hk', hk]⟩

/-- Witness for C4 (amended) at a concrete merge of one master row and two
extracted rows, one of which overwrites the master row's key. -/
theorem C4_witness :
    (∀ r ∈ [["05/02/2024", "A100"], ["03/02/2024", "B200"]],
      r ∈ [(["01/01/2024", "A100"] : Row)] ∨
      r ∈ [["05/02/2024", "A100"], ["03/02/2024", "B200"]]) ∧
    (∀ r1 ∈ [["05/02/2024", "A100"], ["03/02/2024", "B200"]],
      ∀ r2 ∈ [["05/02/2024", "A100"], ["03/02/2024", "B200"]],
      rowKeyOf 1 r1 = rowKeyOf 1 r2 → r1 = r2) ∧
    (∀ k : String,
      (∃ r ∈ [["05/02/2024", "A100"], ["03/02/2024", "B200"]], rowKeyOf 1 r = some k) ↔
      (∃ r, (r ∈ [(["01/01/2024", "A100"] : Row)] ∨
          r ∈ [["05/02/2024", "A100"], ["03/02/2024", "B200"]]) ∧
        rowKeyOf 1 r = some k)) ∧
    (∀ r, (r ∈ [(["01/01/2024", "A100"] : Row)] ∨
        r ∈ [["05/02/2024", "A100"], ["03/02/2024", "B200"]]) → 1 < r.length →
      r ∈ [["05/02/2024", "A100"], ["03/02/2024", "B200"]] ∨
      ∃ r', r' ∈ [["05/02/2024", "A100"], ["03/02/2024", "B200"]] ∧ r' ≠ r ∧
        rowKeyOf 1 r' = rowKeyOf 1 r) :=
  C4_one_row_per_key_no_silent_drop (by decide)
    (show reconcile ["Date", AUTH_COL] [["01/01/2024", "A100"]]
        [["05/02/2024", "A100"], ["03/02/2024", "B200"]] =
      .ok [["05/02/2024", "A100"], ["03/02/2024", "B200"]] from by decide)

/-- Counterexample for C6 as stated: with the forceful click failing and the
dispatched click event succeeding (raising nothing), the primitive does not
stop after strategy 2 — strategy 3 is executed anyway, so a later strategy ran
even though an earlier one succeeded. -/
theorem C6_counterexample :
    (clickRowByText ⟨true, true, true, .timeoutFail, none, none⟩).1 = [1, 2, 3] ∧
    (clickRowByText ⟨true, true, true, .timeoutFail, none, none⟩).1 ≠ [1, 2] := by
  decide

/-- Claim C6 (amended): the three click strategies are attempted in the fixed
order 1, 2, 3 and never reordered or skipped ahead; strategy 1 alone
short-circuits on success; once strategy 1 fails, strategy 2 and then
strategy 3 both run (strategy 2's success is not detected, so it never stops
the escalation); whenever strategy 3 is reached, strategies 1 and 2 were
attempted first, and the primitive reports overall success exactly when the
page-scoped JS click raises nothing. -/
theorem C6_click_escalation_order {env : ClickEnv}
    (h1 : env.tableVisible = true) (h2 : env.rowVisible = true)
    (h3 : env.targetVisible = true) :
    ((clickRowByText env).1 = [1] ∨ (clickRowByText env).1 = [1, 2] ∨
      (clickRowByText env).1 = [1, 2, 3]) ∧
    (env.forcefulClick = .success ↔
      (clickRowByText env).1 = [1] ∧ (clickRowByText env).2 = .ok ()) ∧
    (3 ∈ (clickRowByText env).1 →
      (clickRowByText env).1 = [1, 2, 3] ∧ env.forcefulClick ≠ .success ∧
      env.dispatchFail = none) ∧
    ((clickRowByText env).1 = [1, 2, 3] →
      ((clickRowByText env).2 = .ok () ↔ env.evalFail = none)) := by
  obtain ⟨tv, rv, tgv, fc, df, ef⟩ := env
  cases h1
  cases h2
  cases h3
  cases fc <;> cases df <;> cases ef <;> simp [clickRowByText]

/-- Witness for C6 (amended): both early strategies fail, the JS click
succeeds. -/
theorem C6_witness :
    ((clickRowByText ⟨true, true, true, .otherFail, none, none⟩).1 = [1] ∨
      (clickRowByText ⟨true, true, true, .otherFail, none, none⟩).1 = [1, 2] ∨
      (clickRowByText ⟨true, true, true, .otherFail, none, none⟩).1 = [1, 2, 3]) ∧
    ((ClickEnv.mk true true true .otherFail none none).forcefulClick = .success ↔
      (clickRowByText ⟨true, true, true, .otherFail, none, none⟩).1 = [1] ∧
      (clickRowByText ⟨true, true, true, .otherFail, none, none⟩).2 = .ok ()) ∧
    (3 ∈ (clickRowByText ⟨true, true, true, .otherFail, none, none⟩).1 →
      (clickRowByText ⟨true, true, true, .otherFail, none, none⟩).1 = [1, 2, 3] ∧
      (ClickEnv.mk true true true .otherFail none none).forcefulClick ≠ .success ∧
      (ClickEnv.mk true true true .otherFail none none).dispatchFail = none) ∧
    ((clickRowByText ⟨true, true, true, .otherFail, none, none⟩).1 = [1, 2, 3] →
      ((clickRowByText ⟨true, true, true, .otherFail, none, none⟩).2 = .ok () ↔
        (ClickEnv.mk true true true .otherFail none none).evalFail = none)) :=
  C6_click_escalation_order rfl rfl rfl

/-- A concrete environment in which the very first pipeline step (login)
raises a Playwright timeout. -/
def envLoginTimeout : MainEnv :=
  { loginFail := some .timeoutErr
  , postLoginUrlTimeout := false
  , tabsVisibleTimeout := false
  , prevMonthTableTimeout := false
  , clickEnv := ⟨true, true, true, .success, none, none⟩
  , responseTimeout := false
  , responseStatus := 200
  , chiuvimTableFound := true
  , skipMapping := true
  , instMap := []
  , headers0 := ["Date", AUTH_COL]
  , rows0 := [] }

/-- Counterexample for C8 as stated: when the login step fails, the error is
caught and logged by category, but `main` returns normally — the process exit
code is 0, not the non-zero outcome the claim requires. -/
theorem C8_counterexample :
    (runMain envLoginTimeout ⟨none, []⟩).2.loggedError = some .timeoutCategory ∧
    (runMain envLoginTimeout ⟨none, []⟩).2.exitCode = 0 := by
  decide

/-- Claim C8 (amended): every execution either completes the pipeline (or
halts early on a missing institution map) with no error logged, or a failing
step's exception is caught and logged with its category (timeout vs
unexpected); the browser is closed on every exit path; but the process exit
code is 0 on success and failure alike — failures are logged, not signalled
through the exit status. -/
theorem C8_exit_behavior (env : MainEnv) (fs : FsState) :
    (runMain env fs).2.browserClosed = true ∧
    (runMain env fs).2.exitCode = 0 ∧
    ((runMain env fs).2.loggedError = none ↔ ∃ b, (mainBody env fs).2 = Except.ok b) ∧
    (∀ e, (mainBody env fs).2 = .error e →
      (runMain env fs).2.loggedError = some (categorize e)) := by
  unfold runMain
  rcases hb : mainBody env fs with ⟨fs', res⟩
  cases res with
  | ok b => simp
  | error e => simp
